import Mathlib

/-!
Shallow embedding of `pyclover.py` (Clover point-of-sale metrics reporter) and
verification of its specification claims.

Python `date` objects are represented by their day number (an `Int`, day 0 =
1970-01-01, matching `date.toordinal() - 719163`); `date + timedelta(days=k)`
is day-number addition, `date` comparison is `Int` comparison, and the civil
fields `.year/.month/.day` are recovered with `civilFromDays` (the standard
proleptic-Gregorian conversion that Python's `datetime` implements, with a
transparent year-search step in place of the usual closed-form year-of-era).
Instants (Clover `createdTime` values, `epoch_ms` results) are UTC epoch
milliseconds.  The fixed timezone America/Chicago is modelled by the post-2007
US daylight-saving rule (CST = UTC-6, CDT = UTC-5, DST from 2:00 local on the
second Sunday of March to 2:00 local on the first Sunday of November), which
is what `zoneinfo` applies on every date these claims quantify over.
-/

namespace PyClover

/-- Day number of a civil date (proleptic Gregorian, day 0 = 1970-01-01);
this is the `days_from_civil` conversion underlying Python's `date`. -/
def toDays (y m d : Int) : Int :=
  let y2 := if m ≤ 2 then y - 1 else y
  let mp := if m ≤ 2 then m + 9 else m - 3
  let era := y2 / 400
  let yoe := y2 % 400
  let doy := (153 * mp + 2) / 5 + d - 1
  let doe := yoe * 365 + yoe / 4 - yoe / 100 + doy
  era * 146097 + doe - 719468

/-- Day-of-era of March 1 of shifted year `t` (relative to the era start). -/
def f3 (t : Int) : Int := 365 * t + t / 4 - t / 100 + t / 400

/-- Year-of-era of a day-of-era: the `t` with `f3 t ≤ doe < f3 (t+1)`,
found from the first approximation `doe / 365`. -/
def yoeOf (doe : Int) : Int :=
  if doe < f3 (doe / 365) then doe / 365 - 1 else doe / 365

/-- Shifted month (March = 0 … February = 11) of a day-of-shifted-year. -/
def mpOf (doy : Int) : Int := (5 * doy + 2) / 153

/-- Day-of-month of a day-of-shifted-year. -/
def domOfDoy (doy : Int) : Int := doy - (153 * mpOf doy + 2) / 5 + 1

/-- A civil date (year, month, day). -/
structure Ymd where
  y : Int
  m : Int
  d : Int
deriving DecidableEq, Repr

/-- Civil date of a day number: inverse of `toDays`, i.e. the
`civil_from_days` conversion underlying Python's `date`. -/
def civilFromDays (n : Int) : Ymd :=
  let z := n + 719468
  let era := z / 146097
  let doe := z % 146097
  let yoe := yoeOf doe
  let doy := doe - f3 yoe
  let mp := mpOf doy
  let d := domOfDoy doy
  let m := mp + (if mp < 10 then 3 else -9)
  ⟨(yoe + era * 400) + (if m ≤ 2 then 1 else 0), m, d⟩

/-- `date.year` of a day number. -/
def yearOf (n : Int) : Int := (civilFromDays n).y

/-- `date.month` of a day number. -/
def monthOf (n : Int) : Int := (civilFromDays n).m

/-- `date.day` of a day number. -/
def domOf (n : Int) : Int := (civilFromDays n).d

/-- Python `date.weekday()`: Monday = 0 … Sunday = 6 (day 0 is a Thursday). -/
def pyWeekday (n : Int) : Int := (n + 3) % 7

/-- Sunday-based weekday index: Sunday = 0 … Saturday = 6. -/
def wdSun (n : Int) : Int := (n + 4) % 7

/-- US daylight-saving predicate for a Central wall-clock time
(day number `n`, minute-of-day `minute`): DST from 2:00 on the second Sunday
of March through 2:00 on the first Sunday of November. -/
def isDstCivil (n minute : Int) : Prop :=
  (4 ≤ monthOf n ∧ monthOf n ≤ 10) ∨
  (monthOf n = 3 ∧
    ((8 ≤ domOf n - wdSun n ∧ (wdSun n ≠ 0 ∨ 15 ≤ domOf n)) ∨
     (wdSun n = 0 ∧ 8 ≤ domOf n ∧ domOf n ≤ 14 ∧ 120 ≤ minute))) ∨
  (monthOf n = 11 ∧
    (domOf n - wdSun n ≤ 0 ∨ (wdSun n = 0 ∧ domOf n ≤ 7 ∧ minute < 120)))

instance (n minute : Int) : Decidable (isDstCivil n minute) := by
  unfold isDstCivil; infer_instance

/-- US daylight-saving predicate for a UTC instant (epoch milliseconds):
DST period is [second-Sunday-of-March 08:00 UTC, first-Sunday-of-November
07:00 UTC), decided from the instant's UTC calendar day and time. -/
def isDstInstant (u : Int) : Prop :=
  let n := u / 86400000
  let t := u % 86400000
  (4 ≤ monthOf n ∧ monthOf n ≤ 10) ∨
  (monthOf n = 3 ∧
    ((8 ≤ domOf n - wdSun n ∧ (wdSun n ≠ 0 ∨ 15 ≤ domOf n)) ∨
     (wdSun n = 0 ∧ 8 ≤ domOf n ∧ domOf n ≤ 14 ∧ 28800000 ≤ t))) ∨
  (monthOf n = 11 ∧
    (domOf n - wdSun n ≤ 0 ∨ (wdSun n = 0 ∧ domOf n ≤ 7 ∧ t < 25200000)))

instance (u : Int) : Decidable (isDstInstant u) := by
  unfold isDstInstant; infer_instance

/-- UTC offset (minutes to add to Central wall time to reach UTC) of a
Central wall-clock time. -/
def offCivil (n minute : Int) : Int := if isDstCivil n minute then 300 else 360

/-- `epoch_ms(datetime.combine(day n, time with minute-of-day m, CENTRAL_TZ))`:
UTC epoch milliseconds of a Central wall-clock time. -/
def epochMsOf (n minute : Int) : Int := (1440 * n + minute + offCivil n minute) * 60000

/-- UTC offset (minutes) in effect at a UTC instant. -/
def offInstant (u : Int) : Int := if isDstInstant u then 300 else 360

/-- `datetime.fromtimestamp(u / 1000, tz=utc).astimezone(CENTRAL_TZ)`,
reduced to the `(date, hour)` pair the program reads off it. -/
def centralOfUtcMs (u : Int) : Int × Int :=
  let lm := u - offInstant u * 60000
  (lm / 86400000, lm % 86400000 / 3600000)

end PyClover

namespace PyClover

theorem yoe_spec (doe : Int) (h1 : 0 ≤ doe) (h2 : doe < 146097) :
    0 ≤ yoeOf doe ∧ yoeOf doe ≤ 399 ∧ f3 (yoeOf doe) ≤ doe ∧ doe < f3 (yoeOf doe + 1) := by
  unfold yoeOf
  rcases lt_or_ge doe (f3 (doe / 365)) with h | h
  · rw [if_pos h]
    rw [sub_add_cancel]
    simp only [f3] at h ⊢
    omega
  · rw [if_neg (not_lt.mpr h)]
    simp only [f3] at h ⊢
    omega

theorem mp_spec (doy : Int) (h0 : 0 ≤ doy) (h1 : doy ≤ 365) :
    0 ≤ mpOf doy ∧ mpOf doy ≤ 11 ∧ 1 ≤ domOfDoy doy ∧ domOfDoy doy ≤ 31 ∧
    (153 * mpOf doy + 2) / 5 + domOfDoy doy - 1 = doy := by
  unfold domOfDoy mpOf
  omega

theorem f3_step (t : Int) : f3 t + 365 ≤ f3 (t + 1) ∧ f3 (t + 1) ≤ f3 t + 366 := by
  simp only [f3]
  omega

theorem toDays_shifted (y2 mp d : Int) (hmp0 : 0 ≤ mp) (hmp1 : mp ≤ 11) :
    toDays (y2 + (if mp + (if mp < 10 then 3 else -9) ≤ 2 then 1 else 0))
           (mp + (if mp < 10 then 3 else -9)) d
      = (y2 / 400) * 146097
        + ((y2 % 400) * 365 + (y2 % 400) / 4 - (y2 % 400) / 100 + ((153 * mp + 2) / 5 + d - 1))
        - 719468 := by
  rcases lt_or_ge mp 10 with h | h
  · have hm : ¬ (mp + 3 ≤ 2) := by omega
    simp only [if_pos h, if_neg hm, toDays, add_zero]
    have e : mp + 3 - 3 = mp := by ring
    rw [e]
  · have hm : mp + -9 ≤ 2 := by omega
    simp only [if_neg (not_lt.mpr h), if_pos hm, toDays]
    have e1 : y2 + 1 - 1 = y2 := by ring
    have e2 : mp + -9 + 9 = mp := by ring
    rw [e1, e2]

/-- Field bounds of `civilFromDays` and the left-inverse property:
`toDays` of the recovered civil triple is the original day number. -/
theorem fields_char (n : Int) :
    1 ≤ (civilFromDays n).m ∧ (civilFromDays n).m ≤ 12 ∧
    1 ≤ (civilFromDays n).d ∧ (civilFromDays n).d ≤ 31 ∧
    toDays (civilFromDays n).y (civilFromDays n).m (civilFromDays n).d = n := by
  obtain ⟨doe, hd0, hd1, hdoe⟩ :
      ∃ doe, 0 ≤ doe ∧ doe < 146097 ∧ (n + 719468) % 146097 = doe :=
    ⟨_, Int.emod_nonneg _ (by norm_num), Int.emod_lt_of_pos _ (by norm_num), rfl⟩
  obtain ⟨era, hera⟩ : ∃ e, (n + 719468) / 146097 = e := ⟨_, rfl⟩
  have hsplit : era * 146097 + doe = n + 719468 := by
    rw [← hdoe, ← hera]; omega
  have hy := yoe_spec doe hd0 hd1
  obtain ⟨yoe, hyoe⟩ : ∃ v, yoeOf doe = v := ⟨_, rfl⟩
  rw [hyoe] at hy
  have hstep := f3_step yoe
  obtain ⟨doy, hdoy⟩ : ∃ v, doe - f3 yoe = v := ⟨_, rfl⟩
  have hdoy0 : 0 ≤ doy := by omega
  have hdoy1 : doy ≤ 365 := by omega
  have hmp := mp_spec doy hdoy0 hdoy1
  obtain ⟨mp, hmp2⟩ : ∃ v, mpOf doy = v := ⟨_, rfl⟩
  obtain ⟨dd, hdd⟩ : ∃ v, domOfDoy doy = v := ⟨_, rfl⟩
  rw [hmp2, hdd] at hmp
  have hf3 : f3 yoe = 365 * yoe + yoe / 4 - yoe / 100 + yoe / 400 := rfl
  simp only [civilFromDays]
  rw [hdoe, hera, hyoe, hdoy, hmp2, hdd]
  refine ⟨?_, ?_, by omega, by omega, ?_⟩
  · rcases lt_or_ge mp 10 with h | h
    · rw [if_pos h]; omega
    · rw [if_neg (not_lt.mpr h)]; omega
  · rcases lt_or_ge mp 10 with h | h
    · rw [if_pos h]; omega
    · rw [if_neg (not_lt.mpr h)]; omega
  · rw [toDays_shifted _ _ _ hmp.1 hmp.2.1,
       Int.add_mul_ediv_right _ _ (by norm_num : (400:Int) ≠ 0),
       Int.add_mul_emod_self, Int.emod_eq_of_lt hy.1 (by omega)]
    omega

end PyClover

namespace PyClover

/-! ## Dictionaries

Python `dict`s with integer values are modelled as association lists with
unique keys kept in insertion order; `dincr m k v` is
`m[k] = m.get(k, 0) + v`, and `defaultdict(int)` accumulation is the same
operation. -/

def dlookup {κ : Type} [DecidableEq κ] : List (κ × Int) → κ → Option Int
  | [], _ => none
  | (k, v) :: rest, key => if k = key then some v else dlookup rest key

def vget {κ : Type} [DecidableEq κ] (m : List (κ × Int)) (key : κ) : Int :=
  (dlookup m key).getD 0

def dincr {κ : Type} [DecidableEq κ] : List (κ × Int) → κ → Int → List (κ × Int)
  | [], key, amt => [(key, amt)]
  | (k, v) :: rest, key, amt =>
      if k = key then (k, v + amt) :: rest else (k, v) :: dincr rest key amt

/-! ## Records

Clover JSON records, decoded with the same permissive field access the
program uses: an absent field is `none`, `x.get(f, 0)` is `Option.getD 0`.
A nested `refunds` object is modelled by its `elements` list (an absent or
falsy `refunds` is `none`). -/

structure Refund where
  amount : Option Int
deriving DecidableEq, Repr

structure Employee where
  id : Option String
deriving DecidableEq, Repr

structure OrderStub where
  employee : Option Employee
deriving DecidableEq, Repr

structure Payment where
  amount : Option Int
  taxAmount : Option Int
  tipAmount : Option Int
  refunds : Option (List Refund)
  employee : Option Employee
  order : Option OrderStub
  createdTime : Option Int
deriving DecidableEq, Repr

/-- A payment with every field absent (all-defaults record). -/
def Payment.empty : Payment := ⟨none, none, none, none, none, none, none⟩

structure DiscountLine where
  name : Option String
  discount : Option Employee
  discountDefinitionId : Option String
  discountId : Option String
  amount : Option Int
  percentage : Option Int
deriving DecidableEq, Repr

/-- A discount line with every field absent. -/
def DiscountLine.empty : DiscountLine := ⟨none, none, none, none, none, none⟩

structure Order where
  total : Option Int
  discounts : List DiscountLine
deriving DecidableEq, Repr

/-- Python truthiness of an optional string (`None` and `""` are falsy). -/
def strTruthy : Option String → Bool
  | none => false
  | some s => s ≠ ""

/-- Python truthiness of an optional integer (`None` and `0` are falsy). -/
def intTruthy : Option Int → Bool
  | none => false
  | some v => v ≠ 0

/-- The refund list the program iterates:
`p.get("refunds", {}).get("elements", []) if p.get("refunds") else []`. -/
def refundElems (p : Payment) : List Refund := (p.refunds).getD []

/-- Python `int(x)` on a real number `a/100`: truncation toward zero. -/
def trunc100 (a : Int) : Int := if 0 ≤ a then a / 100 else -((-a) / 100)

/-! ## Metrics (`net_sales_cents`, `total_tax_cents`, `total_tips_cents`,
`tips_by_employee`, `total_discounts_cents`, `discounts_breakdown`) -/

def sumBy {α : Type} (xs : List α) (f : α → Int) : Int := (xs.map f).sum

/-- Refund total of one payment. -/
def refundsOf (p : Payment) : Int := sumBy (refundElems p) (fun r => r.amount.getD 0)

/-- `net_sales_cents`: Σ amount − Σ taxAmount − Σ refund amounts. -/
def net_sales_cents (payments : List Payment) : Int :=
  sumBy payments (fun p => p.amount.getD 0)
    - sumBy payments (fun p => p.taxAmount.getD 0)
    - sumBy payments refundsOf

/-- `total_tax_cents`. -/
def total_tax_cents (payments : List Payment) : Int :=
  sumBy payments (fun p => p.taxAmount.getD 0)

/-- `total_tips_cents`. -/
def total_tips_cents (payments : List Payment) : Int :=
  sumBy payments (fun p => p.tipAmount.getD 0)

/-- The employee id `tips_by_employee` extracts for a payment: the payment's
own employee first, else the payment's order's employee. -/
def empIdOf (p : Payment) : Option String :=
  match p.employee with
  | some e => e.id
  | none =>
    match p.order with
    | some o =>
      match o.employee with
      | some e => e.id
      | none => none
    | none => none

/-- The bucket name `tips_by_employee` files a payment under:
`employee_map.get(emp_id, emp_id) if emp_id else "Unknown Employee"`. -/
def tipBucketName (em : String → Option String) (p : Payment) : String :=
  match empIdOf p with
  | some i => if i = "" then "Unknown Employee" else (em i).getD i
  | none => "Unknown Employee"

/-- `tips_by_employee`: tip totals per employee display name, skipping
payments whose tip amount is zero or negative. -/
def tips_by_employee (payments : List Payment) (em : String → Option String) :
    List (String × Int) :=
  payments.foldl
    (fun acc p =>
      if p.tipAmount.getD 0 ≤ 0 then acc
      else dincr acc (tipBucketName em p) (p.tipAmount.getD 0))
    []

/-- `total_discounts_cents`: Σ over orders and their discount lines of the
line's `amount` field with default 0. -/
def total_discounts_cents (orders : List Order) : Int :=
  sumBy orders (fun o => sumBy o.discounts (fun d => d.amount.getD 0))

/-- Display-name resolution of a discount line in `discounts_breakdown`. -/
def discountNameOf (dm : String → Option String) (d : DiscountLine) : String :=
  let name := d.name.getD "Unknown Discount"
  if name = "Discount" then
    let did : Option String :=
      match d.discount with
      | some r => r.id
      | none =>
        if strTruthy d.discountDefinitionId then d.discountDefinitionId
        else if strTruthy d.discountId then d.discountId
        else none
    match did with
    | some i =>
      if i = "" then "Manual Discount"
      else
        match dm i with
        | some nm => nm
        | none => "Manual Discount"
    | none => "Manual Discount"
  else name

/-- Per-line amount computed by `discounts_breakdown`: a truthy fixed
`amount` verbatim, else for a truthy `percentage` on a positive order total
`-int(order_total * percentage / 100)`, else 0. -/
def discountAmountOf (orderTotal : Int) (d : DiscountLine) : Int :=
  if intTruthy d.amount then d.amount.getD 0
  else if intTruthy d.percentage ∧ 0 < orderTotal then
    -(trunc100 (orderTotal * d.percentage.getD 0))
  else 0

/-- `discounts_breakdown`: per-display-name totals of computed line amounts. -/
def discounts_breakdown (orders : List Order) (dm : String → Option String) :
    List (String × Int) :=
  orders.foldl
    (fun acc o =>
      o.discounts.foldl
        (fun acc2 d => dincr acc2 (discountNameOf dm d) (discountAmountOf (o.total.getD 0) d))
        acc)
    []

/-- The scalar value `main` prints for any metric:
`${abs(cents)/100:,.2f}` takes the absolute value of the accumulated cents. -/
def displayedScalar (cents : Int) : Int := |cents|

end PyClover

namespace PyClover

/-! ## Window resolution (`window`, `sunday_of_week`) -/

/-- Gregorian leap year. -/
def isLeap (y : Int) : Prop := (y % 4 = 0 ∧ y % 100 ≠ 0) ∨ y % 400 = 0

instance (y : Int) : Decidable (isLeap y) := by unfold isLeap; infer_instance

/-- Length of month `m` of year `y`. -/
def monthLen (y m : Int) : Int :=
  if m = 2 then (if isLeap y then 29 else 28)
  else if m = 4 ∨ m = 6 ∨ m = 9 ∨ m = 11 then 30
  else 31

/-- The numeric value of a decimal digit character. -/
def charDigit? (c : Char) : Option Nat :=
  if '0' ≤ c ∧ c ≤ '9' then some (c.toNat - '0'.toNat) else none

def parseNatAux : List Char → Nat → Option Nat
  | [], acc => some acc
  | c :: cs, acc =>
    match charDigit? c with
    | some d => parseNatAux cs (10 * acc + d)
    | none => none

/-- A non-empty all-digit character string as a natural number. -/
def parseNatChars : List Char → Option Nat
  | [] => none
  | c :: cs => parseNatAux (c :: cs) 0

/-- Python `int(s)` on the plain decimal forms (optional leading minus). -/
def pyToInt? (s : String) : Option Int :=
  match s.toList with
  | '-' :: rest => (parseNatChars rest).map (fun n => -(n : Int))
  | cs => (parseNatChars cs).map (fun n => (n : Int))

/-- Split a character list at `'-'` separators (Python `s.split("-")`). -/
def splitDash : List Char → List (List Char)
  | [] => [[]]
  | c :: cs =>
    if c = '-' then [] :: splitDash cs
    else
      match splitDash cs with
      | h :: t => (c :: h) :: t
      | [] => [[c]]

/-- `date.fromisoformat` on the `YYYY-MM-DD` form: the day number of the
parsed calendar date, or `none` when the string is not a valid date. -/
def parseIso (s : String) : Option Int :=
  match splitDash s.toList with
  | [ys, ms, ds] =>
    if ys.length = 4 ∧ ms.length = 2 ∧ ds.length = 2 then
      match parseNatChars ys, parseNatChars ms, parseNatChars ds with
      | some y, some m, some dd =>
        if 1 ≤ y ∧ 1 ≤ m ∧ m ≤ 12 ∧ 1 ≤ dd ∧ (dd : Int) ≤ monthLen y m then
          some (toDays y m dd)
        else none
      | _, _, _ => none
    else none
  | _ => none

/-- `sunday_of_week`: `d - timedelta(days=(d.weekday() + 1) % 7)`. -/
def sunday_of_week (n : Int) : Int := n - (pyWeekday n + 1) % 7

/-- `today.replace(day=1)`. -/
def firstOfMonth (n : Int) : Int := toDays (yearOf n) (monthOf n) 1

inductive RangeType where
  | day
  | range
  | year
deriving DecidableEq, Repr

/-- The tuple `window` returns: `(start_ms, end_ms, s, e, range_type)`. -/
structure Win where
  start_ms : Int
  end_ms : Int
  s : Int
  e : Int
  rtype : RangeType
deriving DecidableEq, Repr

/-- The common epilogue of `window`: instants at civil noon of `s` and civil
midnight of `e + 1 day` in the fixed timezone. -/
def mkWin (s e : Int) (t : RangeType) : Win :=
  ⟨epochMsOf s 720, epochMsOf (e + 1) 0, s, e, t⟩

/-- The keyword branches of `window` (after the `"year"`, numeric-year and
ISO-date attempts); an unknown keyword is the fatal invalid-range exit. -/
def windowKeyword (range_key : String) (today : Int) : Option Win :=
  if range_key = "today" then some (mkWin today today .day)
  else if range_key = "yesterday" then some (mkWin (today - 1) (today - 1) .day)
  else if range_key = "week" then
    some (mkWin (max (sunday_of_week today) (firstOfMonth today)) today .range)
  else if range_key = "month" then some (mkWin (firstOfMonth today) today .range)
  else if range_key = "last_week" then
    some (mkWin (sunday_of_week today - 7) (sunday_of_week today - 1) .range)
  else if range_key = "last_month" then
    some (mkWin (firstOfMonth (firstOfMonth today - 1)) (firstOfMonth today - 1) .range)
  else none

/-- `window(range_key)` with the current Central date injected: the literal
`"year"` (exact, case-sensitive comparison), then a numeric year in
`[2000, 2099]`, then an ISO date, then the keywords. -/
def window (range_key : String) (today : Int) : Option Win :=
  if range_key = "year" then
    some (mkWin (toDays (yearOf today) 1 1) (toDays (yearOf today) 12 31) .year)
  else
    match pyToInt? range_key with
    | some y =>
      if 2000 ≤ y ∧ y ≤ 2099 then some (mkWin (toDays y 1 1) (toDays y 12 31) .year)
      else
        match parseIso range_key with
        | some n => some (mkWin n n .day)
        | none => windowKeyword range_key today
    | none =>
      match parseIso range_key with
      | some n => some (mkWin n n .day)
      | none => windowKeyword range_key today

/-! ## Pagination (`paged_get`)

The remote collection is abstracted by `gp : offset → page`; the program's
unbounded `while True` loop is given fuel, with `none` marking the run that
never reaches a short or empty page. -/

def pagedGo {α : Type} (gp : Nat → List α) : Nat → Nat → Option (List α)
  | _, 0 => none
  | offset, fuel+1 =>
    let batch := gp offset
    if batch.isEmpty then some []
    else if batch.length < 1000 then some batch
    else
      match pagedGo gp (offset + 1000) fuel with
      | some rest => some (batch ++ rest)
      | none => none

def paged_get {α : Type} (gp : Nat → List α) (fuel : Nat) : Option (List α) :=
  pagedGo gp 0 fuel

/-! ## Fetch adapters (`get_payments`, `get_orders`)

The drained remote query is abstracted by an oracle taking the interval
bounds in epoch milliseconds (and for payments a flag telling whether the
lower bound is the closed chunked form `createdTime>=a` rather than the
strict `createdTime>a`). -/

/-- One step of the payments chunk loop: `date(y, m+1, 1)` (or January 1 of
the next year) from the fields of the current chunk date. -/
def nextMonthStart (n : Int) : Int :=
  if monthOf n = 12 then toDays (yearOf n + 1) 1 1
  else toDays (yearOf n) (monthOf n + 1) 1

/-- Chunk bounds emitted by the payments chunk loop: noon of the chunk's
first day to midnight after the chunk's last day, both Central. -/
def payChunksGo (endDate : Int) : Int → Nat → List (Int × Int)
  | _, 0 => []
  | cur, fuel+1 =>
    if cur ≤ endDate then
      (epochMsOf cur 720, epochMsOf (min (nextMonthStart cur - 1) endDate + 1) 0)
        :: payChunksGo endDate (nextMonthStart cur) fuel
    else []

/-- `get_payments`: a single drained query for spans of at most 90 days,
calendar-month chunks re-anchored to the noon/midnight window otherwise. -/
def get_payments (pg : Int → Int → Bool → List Payment) (start_ms end_ms : Int) :
    List Payment :=
  if 90 < (end_ms - start_ms) / 86400000 then
    let startDate := (centralOfUtcMs start_ms).1
    let endDate := (centralOfUtcMs end_ms).1
    ((payChunksGo endDate startDate (endDate + 1 - startDate).toNat).map
      (fun c => pg c.1 c.2 true)).flatten
  else pg start_ms end_ms false

/-- `current_dt.replace(month=current_dt.month + 1, day=1)` (or January of
the next year) on a UTC datetime held as epoch milliseconds: the UTC
calendar month advances, the time of day is kept. -/
def ordersNextMonth (ms : Int) : Int :=
  nextMonthStart (ms / 86400000) * 86400000 + ms % 86400000

/-- Chunk bounds emitted by the orders chunk loop: raw UTC instants cut at
UTC month boundaries that keep the start instant's time of day. -/
def orderChunksGo (endMs : Int) : Int → Nat → List (Int × Int)
  | _, 0 => []
  | cur, fuel+1 =>
    if cur < endMs then
      (cur, min (ordersNextMonth cur) endMs) :: orderChunksGo endMs (ordersNextMonth cur) fuel
    else []

/-- `get_orders`: a single drained query for spans of at most 90 days, UTC
month-boundary chunks otherwise. -/
def get_orders (og : Int → Int → List Order) (start_ms end_ms : Int) : List Order :=
  if 90 < (end_ms - start_ms) / 86400000 then
    ((orderChunksGo end_ms start_ms ((end_ms - start_ms) / 86400000 + 2).toNat).map
      (fun c => og c.1 c.2)).flatten
  else og start_ms end_ms

/-! ## Hourly sales breakdown (`sales_by_hour`) -/

/-- The per-payment net amount `sales_by_hour` accumulates:
`amount - taxAmount - refund total`. -/
def paymentNet (p : Payment) : Int :=
  p.amount.getD 0 - p.taxAmount.getD 0 - refundsOf p

/-- `sales_by_hour`: hour-of-day buckets 12–23 of the target date plus the
synthetic bucket 24 for hour 0 of the next date; payments with a missing
(or zero, hence falsy) `createdTime` and payments outside those hours are
skipped. -/
def sales_by_hour (payments : List Payment) (target : Int) : List (Int × Int) :=
  payments.foldl
    (fun acc p =>
      match p.createdTime with
      | none => acc
      | some t =>
        if t = 0 then acc
        else
          let dt := centralOfUtcMs t
          if dt.1 = target then
            (if 12 ≤ dt.2 then dincr acc dt.2 (paymentNet p) else acc)
          else if dt.1 = target + 1 ∧ dt.2 = 0 then dincr acc 24 (paymentNet p)
          else acc)
    []

/-- Sum of the hourly breakdown over buckets 12 through 24 inclusive. -/
def bucketSum (m : List (Int × Int)) : Int :=
  ((List.range 13).map (fun i => vget m (12 + (i : Int)))).sum

end PyClover

namespace PyClover

/-! ## Dictionary lemmas -/

def dictTotal {κ : Type} (m : List (κ × Int)) : Int := (m.map (fun kv => kv.2)).sum

def dkeys {κ : Type} (m : List (κ × Int)) : List κ := m.map (fun kv => kv.1)

theorem dincr_total {κ : Type} [DecidableEq κ] (m : List (κ × Int)) (k : κ) (v : Int) :
    dictTotal (dincr m k v) = dictTotal m + v := by
  induction m with
  | nil => simp [dincr, dictTotal]
  | cons kv rest ih =>
    obtain ⟨a, b⟩ := kv
    by_cases h : a = k
    · simp [dincr, h, dictTotal]
      ring
    · simp [dincr, h, dictTotal] at ih ⊢
      omega

theorem dincr_vget {κ : Type} [DecidableEq κ] (m : List (κ × Int)) (k key : κ) (v : Int) :
    vget (dincr m k v) key = vget m key + (if k = key then v else 0) := by
  induction m with
  | nil =>
    by_cases h : k = key <;> simp [dincr, vget, dlookup, h]
  | cons kv rest ih =>
    obtain ⟨a, b⟩ := kv
    by_cases h : a = k
    · subst h
      by_cases h2 : a = key <;> simp [dincr, vget, dlookup, h2]
    · by_cases h2 : a = key
      · subst h2
        simp [dincr, h, vget, dlookup]
        intro hka
        exact absurd hka.symm h
      · simp [dincr, h, vget, dlookup, h2] at ih ⊢
        exact ih

theorem dincr_keys {κ : Type} [DecidableEq κ] (m : List (κ × Int)) (k key : κ) (v : Int) :
    key ∈ dkeys (dincr m k v) ↔ (key ∈ dkeys m ∨ key = k) := by
  induction m with
  | nil => simp [dincr, dkeys, eq_comm]
  | cons kv rest ih =>
    obtain ⟨a, b⟩ := kv
    by_cases h : a = k
    · subst h
      simp [dincr, dkeys] at ih ⊢
      tauto
    · simp [dincr, h, dkeys] at ih ⊢
      tauto

theorem sumBy_nil {α : Type} (f : α → Int) : sumBy ([] : List α) f = 0 := rfl

theorem sumBy_cons {α : Type} (x : α) (l : List α) (f : α → Int) :
    sumBy (x :: l) f = f x + sumBy l f := by simp [sumBy]

/-! ## C1: scalar discounts vs the per-line discount rule -/

/-- Inner fold of `discounts_breakdown` over one order's discount lines:
its effect on the running dictionary total. -/
theorem discounts_inner_total (ds : List DiscountLine) (tot : Int)
    (dm : String → Option String) (acc : List (String × Int)) :
    dictTotal (ds.foldl
        (fun a2 d => dincr a2 (discountNameOf dm d) (discountAmountOf tot d)) acc)
      = dictTotal acc + sumBy ds (discountAmountOf tot) := by
  induction ds generalizing acc with
  | nil => simp [sumBy]
  | cons d rest ih =>
    rw [List.foldl_cons, ih, dincr_total, sumBy_cons]
    ring

/-- Total of the `discounts_breakdown` dictionary: the sum of the per-line
computed amounts over all orders. -/
theorem discounts_breakdown_total (orders : List Order) (dm : String → Option String) :
    dictTotal (discounts_breakdown orders dm)
      = sumBy orders (fun o => sumBy o.discounts (discountAmountOf (o.total.getD 0))) := by
  unfold discounts_breakdown
  suffices h : ∀ acc : List (String × Int),
      dictTotal (orders.foldl
        (fun acc o => o.discounts.foldl
          (fun a2 d => dincr a2 (discountNameOf dm d) (discountAmountOf (o.total.getD 0) d)) acc)
        acc)
      = dictTotal acc + sumBy orders (fun o => sumBy o.discounts (discountAmountOf (o.total.getD 0))) by
    simpa [dictTotal] using h []
  induction orders with
  | nil => intro acc; simp [sumBy]
  | cons o rest ih =>
    intro acc
    rw [List.foldl_cons, ih, discounts_inner_total, sumBy_cons]
    ring

def c1Order : Order :=
  ⟨some 1000, [{ DiscountLine.empty with name := some "Ten Percent", percentage := some 10 }]⟩

/-- C1 counterexample: an order with total 1000 and a single percentage-only
discount line (10%).  The claim says the scalar discounts total counts this
line as `-trunc(1000 * 10 / 100) = -100` (a nonzero contribution), but
`total_discounts_cents` only sums `amount` fields and returns 0; the
percentage rule is applied only by `discounts_breakdown`. -/
theorem c1_counterexample :
    total_discounts_cents [c1Order] = 0 ∧
    -(trunc100 (1000 * 10)) = -100 ∧
    (0 : Int) ≠ -100 ∧
    discounts_breakdown [c1Order] (fun _ => none) = [("Ten Percent", -100)] := by
  decide

/-- C1 amended: the scalar discounts total is the sum of the verbatim
`amount` fields only (absent amounts count 0, percentage-only lines
contribute 0); the fixed-amount-verbatim / `-trunc(total*percentage/100)`
per-line rule governs the detail breakdown, whose dictionary total it sums
to; in particular an order whose only discount line carries a percentage
contributes nothing to the scalar but a nonzero amount to the breakdown. -/
theorem c1_amended (orders : List Order) (dm : String → Option String) :
    total_discounts_cents orders
        = sumBy orders (fun o => sumBy o.discounts (fun d => d.amount.getD 0)) ∧
    dictTotal (discounts_breakdown orders dm)
        = sumBy orders (fun o => sumBy o.discounts (discountAmountOf (o.total.getD 0))) ∧
    (∀ total p : Int, 0 < total → p ≠ 0 → ∀ nm : String, nm ≠ "Discount" →
      total_discounts_cents [⟨some total, [⟨some nm, none, none, none, none, some p⟩]⟩] = 0 ∧
      dictTotal (discounts_breakdown
          [⟨some total, [⟨some nm, none, none, none, none, some p⟩]⟩] dm)
        = -(trunc100 (total * p))) := by
  refine ⟨rfl, discounts_breakdown_total orders dm, ?_⟩
  intro total p htot hp nm hnm
  constructor
  · simp [total_discounts_cents, sumBy]
  · rw [discounts_breakdown_total]
    simp only [sumBy, List.map, List.sum_cons, List.sum_nil, discountAmountOf]
    have h1 : intTruthy (none : Option Int) = false := rfl
    have h2 : intTruthy (some p) = true := by simp [intTruthy, hp]
    simp [h1, h2, htot]

/-- C1 amended, witness. -/
theorem c1_amended_witness :
    total_discounts_cents [⟨some 99, [⟨some "Half", none, none, none, none, some 50⟩]⟩] = 0 ∧
    dictTotal (discounts_breakdown
        [⟨some 99, [⟨some "Half", none, none, none, none, some 50⟩]⟩] (fun _ => none))
      = -(trunc100 (99 * 50)) :=
  (c1_amended [] (fun _ => none)).2.2 99 50 (by decide) (by decide) "Half" (by decide)

/-! ## C2: sign of the displayed net-sales scalar -/

def c2Payment : Payment :=
  { Payment.empty with amount := some 100, refunds := some [⟨some 200⟩] }

/-- C2 counterexample: one payment of 100 cents with a 200-cent refund.  Net
sales is -100, but the output boundary prints `abs(cents)`, so the presented
value is +100, not negative; the absolute-magnitude convention applies to
every metric, not only to discounts. -/
theorem c2_counterexample :
    net_sales_cents [c2Payment] = -100 ∧
    displayedScalar (net_sales_cents [c2Payment]) = 100 ∧
    ¬ displayedScalar (net_sales_cents [c2Payment]) < 0 := by
  decide

/-- C2 amended: when summed refunds exceed gross minus tax the internal
net-sales scalar is negative, but the value presented at the output
boundary is its absolute magnitude (hence non-negative): `main` applies
`abs` to every metric's scalar, not only to discounts. -/
theorem c2_amended (payments : List Payment)
    (h : sumBy payments (fun p => p.amount.getD 0)
          - sumBy payments (fun p => p.taxAmount.getD 0)
         < sumBy payments refundsOf) :
    net_sales_cents payments < 0 ∧
    displayedScalar (net_sales_cents payments) = -(net_sales_cents payments) ∧
    0 ≤ displayedScalar (net_sales_cents payments) := by
  have hneg : net_sales_cents payments < 0 := by
    unfold net_sales_cents
    omega
  refine ⟨hneg, ?_, ?_⟩
  · unfold displayedScalar
    exact abs_of_neg hneg
  · unfold displayedScalar
    exact abs_nonneg _

/-- C2 amended, witness. -/
theorem c2_amended_witness :
    net_sales_cents [c2Payment] < 0 ∧
    displayedScalar (net_sales_cents [c2Payment]) = -(net_sales_cents [c2Payment]) ∧
    0 ≤ displayedScalar (net_sales_cents [c2Payment]) :=
  c2_amended [c2Payment] (by decide)

end PyClover

namespace PyClover

/-! ## C3: case sensitivity of the `year` selector -/

/-- Jan 1 is never after Dec 31 of the same year. -/
theorem jan1_le_dec31 (y : Int) : toDays y 1 1 ≤ toDays y 12 31 := by
  simp only [toDays]
  norm_num
  omega

/-- C3 counterexample: with the current date 2024-06-15, the selector
`YEAR` (and `Year`) is rejected as an invalid range instead of resolving to
the current calendar year; only the exact lowercase literal `year` resolves. -/
theorem c3_counterexample :
    window "YEAR" 19889 = none ∧
    window "Year" 19889 = none ∧
    window "year" 19889 ≠ none := by
  decide

/-- C3 amended: the selector comparison is case-sensitive.  For every
current date, the exact lowercase literal `year` resolves to shape `year`
with start = January 1 and end = December 31 of the current year, while the
case variants `YEAR` and `Year` fail with the invalid-range error. -/
theorem c3_amended (today : Int) :
    window "YEAR" today = none ∧
    window "Year" today = none ∧
    window "year" today
      = some (mkWin (toDays (yearOf today) 1 1) (toDays (yearOf today) 12 31) RangeType.year) ∧
    (window "year" today).map Win.rtype = some RangeType.year ∧
    toDays (yearOf today) 1 1 ≤ toDays (yearOf today) 12 31 := by
  have hy : window "year" today
      = some (mkWin (toDays (yearOf today) 1 1) (toDays (yearOf today) 12 31) RangeType.year) := by
    unfold window
    rw [if_pos rfl]
  exact ⟨rfl, rfl, hy, by rw [hy]; rfl, jan1_le_dec31 _⟩

/-! ## C7: truncation of percentage discounts -/

/-- C7: a percentage-only discount line (truthy percentage, no amount
field) on an order with positive total is computed by the breakdown as
minus the truncation toward zero of `total * percentage / 100`; a 50%
discount on a 99-cent order yields -49, not -50. -/
theorem c7_percentage_truncation (total p : Int) (nm : String) (dm : String → Option String)
    (htot : 0 < total) (hp : p ≠ 0) (hnm : nm ≠ "Discount") :
    discounts_breakdown
        [⟨some total, [{ DiscountLine.empty with name := some nm, percentage := some p }]⟩] dm
      = [(nm, -(trunc100 (total * p)))] ∧
    discounts_breakdown
        [⟨some 99, [{ DiscountLine.empty with name := some "Half Off", percentage := some 50 }]⟩] dm
      = [("Half Off", -49)] ∧
    trunc100 (99 * 50) = 49 ∧
    ((-49 : Int) ≠ -50 ∧ 2 * 49 ≠ 99) := by
  have hname : ∀ s : String, s ≠ "Discount" →
      discountNameOf dm { DiscountLine.empty with name := some s, percentage := some p } = s := by
    intro s hs
    simp [discountNameOf, DiscountLine.empty, hs]
  have hname2 : discountNameOf dm
      { DiscountLine.empty with name := some "Half Off", percentage := some (50:Int) }
        = "Half Off" := by
    simp [discountNameOf, DiscountLine.empty]
  refine ⟨?_, ?_, by decide, by decide, by decide⟩
  · simp only [discounts_breakdown, List.foldl_cons, List.foldl_nil, hname nm hnm]
    simp [discountAmountOf, DiscountLine.empty, intTruthy, hp, htot, dincr]
  · simp only [discounts_breakdown, List.foldl_cons, List.foldl_nil, hname2]
    simp [discountAmountOf, DiscountLine.empty, intTruthy, dincr]
    decide

/-- C7, witness. -/
theorem c7_witness :
    discounts_breakdown
        [⟨some 99, [{ DiscountLine.empty with name := some "Half Off", percentage := some 50 }]⟩]
        (fun _ => none)
      = [("Half Off", -(trunc100 (99 * 50)))] :=
  (c7_percentage_truncation 99 50 "Half Off" (fun _ => none)
    (by decide) (by decide) (by decide)).1

end PyClover

namespace PyClover

/-! ## C9: tips breakdown and the synthetic unknown bucket -/

def c9PaymentA : Payment :=
  { Payment.empty with tipAmount := some 100, employee := some ⟨some "A"⟩ }

def c9PaymentB : Payment :=
  { Payment.empty with tipAmount := some 100, employee := some ⟨some "B"⟩ }

/-- C9 counterexample: two positive-tip payments whose employee ids `A` and
`B` are absent from the employee map, so neither can be resolved to a
display name.  The claim says both are grouped under one synthetic unknown
bucket; the code instead buckets each under its raw id, and the
`Unknown Employee` bucket stays empty. -/
theorem c9_counterexample :
    tips_by_employee [c9PaymentA, c9PaymentB] (fun _ => none) = [("A", 100), ("B", 100)] ∧
    vget (tips_by_employee [c9PaymentA, c9PaymentB] (fun _ => none)) "Unknown Employee" = 0 ∧
    ("A" : String) ≠ "Unknown Employee" ∧ ("A" : String) ≠ "B" := by
  constructor
  · rfl
  · exact ⟨rfl, by decide, by decide⟩

/-- Value of a bucket of the tips fold, for any accumulator. -/
theorem tips_fold_vget (payments : List Payment) (em : String → Option String)
    (k : String) (acc : List (String × Int)) :
    vget (payments.foldl
        (fun acc p =>
          if p.tipAmount.getD 0 ≤ 0 then acc
          else dincr acc (tipBucketName em p) (p.tipAmount.getD 0)) acc) k
      = vget acc k
        + sumBy (payments.filter
            (fun p => decide (0 < p.tipAmount.getD 0) && decide (tipBucketName em p = k)))
            (fun p => p.tipAmount.getD 0) := by
  induction payments generalizing acc with
  | nil => simp [sumBy]
  | cons p ps ih =>
    rw [List.foldl_cons]
    by_cases htip : p.tipAmount.getD 0 ≤ 0
    · rw [if_pos htip, ih]
      have hf : decide (0 < p.tipAmount.getD 0) = false := by
        simp [htip]
      simp [List.filter_cons, hf]
    · rw [if_neg htip, ih, dincr_vget]
      have ht : decide (0 < p.tipAmount.getD 0) = true := by
        simp
        omega
      by_cases hk : tipBucketName em p = k
      · simp [List.filter_cons, ht, hk, sumBy_cons]
        ring
      · have hk2 : decide (tipBucketName em p = k) = false := by
          simp [hk]
        simp [List.filter_cons, ht, hk2, hk]

/-- Key membership of the tips fold, for any accumulator. -/
theorem tips_fold_keys (payments : List Payment) (em : String → Option String)
    (k : String) (acc : List (String × Int)) :
    (k ∈ dkeys (payments.foldl
        (fun acc p =>
          if p.tipAmount.getD 0 ≤ 0 then acc
          else dincr acc (tipBucketName em p) (p.tipAmount.getD 0)) acc)
      ↔ (k ∈ dkeys acc ∨
          ∃ p ∈ payments, 0 < p.tipAmount.getD 0 ∧ tipBucketName em p = k)) := by
  induction payments generalizing acc with
  | nil => simp
  | cons p ps ih =>
    rw [List.foldl_cons]
    by_cases htip : p.tipAmount.getD 0 ≤ 0
    · rw [if_pos htip, ih]
      constructor
      · rintro (h | h)
        · exact Or.inl h
        · exact Or.inr (by obtain ⟨q, hq, h1, h2⟩ := h; exact ⟨q, List.mem_cons_of_mem _ hq, h1, h2⟩)
      · rintro (h | ⟨q, hq, h1, h2⟩)
        · exact Or.inl h
        · rcases List.mem_cons.mp hq with rfl | hq2
          · omega
          · exact Or.inr ⟨q, hq2, h1, h2⟩
    · rw [if_neg htip, ih]
      constructor
      · rintro (h | h)
        · rcases (dincr_keys acc (tipBucketName em p) k _).mp h with h2 | h2
          · exact Or.inl h2
          · exact Or.inr ⟨p, List.mem_cons_self _ _, by omega, h2.symm⟩
        · exact Or.inr (by obtain ⟨q, hq, h1, h2⟩ := h; exact ⟨q, List.mem_cons_of_mem _ hq, h1, h2⟩)
      · rintro (h | ⟨q, hq, h1, h2⟩)
        · exact Or.inl ((dincr_keys acc (tipBucketName em p) k _).mpr (Or.inl h))
        · rcases List.mem_cons.mp hq with rfl | hq2
          · exact Or.inl ((dincr_keys acc (tipBucketName em q) k _).mpr (Or.inr h2.symm))
          · exact Or.inr ⟨q, hq2, h1, h2⟩

/-- C9 amended: the tips breakdown maps bucket names to summed tip amounts
of positive-tip payments and creates keys only for those payments
(zero/negative-tip payments are excluded entirely); a payment with no
truthy employee id on itself or its order goes to the single synthetic
`Unknown Employee` bucket; but a payment whose truthy employee id is absent
from the lookup map is bucketed under the raw id itself, not under the
synthetic bucket. -/
theorem c9_amended (payments : List Payment) (em : String → Option String)
    (hcol : ∀ p ∈ payments, ∀ i : String,
      empIdOf p = some i → i ≠ "" → (em i).getD i ≠ "Unknown Employee") :
    (∀ k : String, vget (tips_by_employee payments em) k
        = sumBy (payments.filter
            (fun p => decide (0 < p.tipAmount.getD 0) && decide (tipBucketName em p = k)))
            (fun p => p.tipAmount.getD 0)) ∧
    (∀ k : String, k ∈ dkeys (tips_by_employee payments em)
        ↔ ∃ p ∈ payments, 0 < p.tipAmount.getD 0 ∧ tipBucketName em p = k) ∧
    (∀ p ∈ payments,
        (tipBucketName em p = "Unknown Employee" ↔ strTruthy (empIdOf p) = false)) ∧
    (∀ p ∈ payments, ∀ i : String,
        empIdOf p = some i → i ≠ "" → em i = none → tipBucketName em p = i) := by
  refine ⟨?_, ?_, ?_, ?_⟩
  · intro k
    have h := tips_fold_vget payments em k []
    simpa [tips_by_employee, vget, dlookup] using h
  · intro k
    have h := tips_fold_keys payments em k []
    simpa [tips_by_employee, dkeys] using h
  · intro p hp
    unfold tipBucketName
    cases hid : empIdOf p with
    | none => simp [strTruthy]
    | some i =>
      by_cases hi : i = ""
      · simp [hi, strTruthy]
      · have := hcol p hp i hid hi
        simp [hi, strTruthy, this]
  · intro p hp i hid hi hnone
    unfold tipBucketName
    rw [hid]
    simp [hi, hnone]

def c9PaymentU : Payment := { Payment.empty with tipAmount := some 50 }

/-- C9 amended, witness. -/
theorem c9_amended_witness :
    (∀ k : String, vget (tips_by_employee [c9PaymentU] (fun _ => none)) k
        = sumBy (([c9PaymentU] : List Payment).filter
            (fun p => decide (0 < p.tipAmount.getD 0)
              && decide (tipBucketName (fun _ => none) p = k)))
            (fun p => p.tipAmount.getD 0)) ∧
    (∀ k : String, k ∈ dkeys (tips_by_employee [c9PaymentU] (fun _ => none))
        ↔ ∃ p ∈ ([c9PaymentU] : List Payment),
            0 < p.tipAmount.getD 0 ∧ tipBucketName (fun _ => none) p = k) ∧
    (∀ p ∈ ([c9PaymentU] : List Payment),
        (tipBucketName (fun _ => none) p = "Unknown Employee"
          ↔ strTruthy (empIdOf p) = false)) ∧
    (∀ p ∈ ([c9PaymentU] : List Payment), ∀ i : String,
        empIdOf p = some i → i ≠ "" → (fun (_ : String) => (none : Option String)) i = none
          → tipBucketName (fun _ => none) p = i) :=
  c9_amended [c9PaymentU] (fun _ => none)
    (by
      intro p hp i hid hi
      rcases List.mem_cons.mp hp with rfl | hq
      · rw [show empIdOf c9PaymentU = none from rfl] at hid
        exact Option.noConfusion hid
      · exact absurd hq (List.not_mem_nil p))

/-! ## C10: page draining -/

/-- Concatenation of pages `0 … k` requested at offsets `base + 1000*i`. -/
def pagesFlat {α : Type} (gp : Nat → List α) : Nat → Nat → List α
  | base, 0 => gp base
  | base, k+1 => gp base ++ pagesFlat gp (base + 1000) k

theorem pagesFlat_range {α : Type} (gp : Nat → List α) :
    ∀ (k base : Nat),
      pagesFlat gp base k = ((List.range (k + 1)).map (fun i => gp (base + 1000 * i))).flatten := by
  intro k
  induction k with
  | zero =>
    intro base
    have hr : List.range 1 = [0] := rfl
    simp [pagesFlat, hr]
  | succ k ih =>
    intro base
    rw [pagesFlat, ih (base + 1000)]
    conv_rhs => rw [List.range_succ_eq_map, List.map_cons, List.flatten_cons, List.map_map]
    congr 1
    apply congrArg
    apply List.map_congr_left
    intro i _
    show gp (base + 1000 + 1000 * i) = gp (base + 1000 * (i + 1))
    congr 1
    ring

/-- Full run of the page-draining loop from any base offset: with a first
short (or empty) page at index `k` and enough fuel, the result is the
concatenation of pages `0 … k`. -/
theorem pagedGo_spec {α : Type} (gp : Nat → List α) :
    ∀ (k base fuel : Nat),
      (gp (base + 1000 * k)).length < 1000 →
      (∀ i, i < k → 1000 ≤ (gp (base + 1000 * i)).length) →
      k < fuel →
      pagedGo gp base fuel = some (pagesFlat gp base k) := by
  intro k
  induction k with
  | zero =>
    intro base fuel h1 h2 hf
    obtain ⟨f, rfl⟩ : ∃ f, fuel = f + 1 := ⟨fuel - 1, by omega⟩
    have hb : base + 1000 * 0 = base := by ring
    rw [hb] at h1
    simp only [pagedGo, pagesFlat]
    by_cases hemp : (gp base).isEmpty
    · rw [if_pos hemp]
      rw [List.isEmpty_iff.mp hemp]
    · rw [if_neg hemp, if_pos h1]
  | succ k ih =>
    intro base fuel h1 h2 hf
    obtain ⟨f, rfl⟩ : ∃ f, fuel = f + 1 := ⟨fuel - 1, by omega⟩
    have hlong : 1000 ≤ (gp base).length := by
      have := h2 0 (by omega)
      simpa using this
    have hne : ¬ (gp base).isEmpty := by
      rw [List.isEmpty_iff]
      intro h
      rw [h] at hlong
      simp at hlong
    have hns : ¬ ((gp base).length < 1000) := by omega
    simp only [pagedGo, pagesFlat]
    rw [if_neg hne, if_neg hns]
    have hrec := ih (base + 1000) f
      (by rw [show base + 1000 + 1000 * k = base + 1000 * (k + 1) from by ring]; exact h1)
      (by
        intro i hi
        rw [show base + 1000 + 1000 * i = base + 1000 * (i + 1) from by ring]
        exact h2 (i + 1) (by omega))
      (by omega)
    rw [hrec]

/-- Divergence of the page-draining loop: if every visited page is full,
no amount of fuel reaches a stopping page. -/
theorem pagedGo_diverge {α : Type} (gp2 : Nat → List α) :
    ∀ (fuel off : Nat),
      (∀ j : Nat, 1000 ≤ (gp2 (off + 1000 * j)).length) →
      pagedGo gp2 off fuel = none := by
  intro fuel
  induction fuel with
  | zero => intro off _; rfl
  | succ f ih =>
    intro off h
    have hlong : 1000 ≤ (gp2 off).length := by
      have := h 0
      simpa using this
    have hne : ¬ (gp2 off).isEmpty := by
      rw [List.isEmpty_iff]
      intro hh
      rw [hh] at hlong
      simp at hlong
    have hns : ¬ ((gp2 off).length < 1000) := by omega
    simp only [pagedGo]
    rw [if_neg hne, if_neg hns]
    have := ih (off + 1000)
      (fun j => by
        have := h (j + 1)
        rw [show off + 1000 * (j + 1) = off + 1000 + 1000 * j from by ring] at this
        exact this)
    rw [this]

/-- C10: the page-draining fetch requests fixed-size-1000 pages at offsets
0, 1000, 2000, …, returns the concatenation of the pages in request order,
and terminates exactly at the first page that is empty or shorter than
1000 elements (a non-empty short page is kept as the last page, and a run
whose every page is full never terminates). -/
theorem c10_paged_get {α : Type} (gp : Nat → List α) (k fuel : Nat)
    (hshort : (gp (1000 * k)).length < 1000)
    (hlong : ∀ i, i < k → 1000 ≤ (gp (1000 * i)).length)
    (hfuel : k < fuel) :
    paged_get gp fuel = some (((List.range (k + 1)).map (fun i => gp (1000 * i))).flatten) ∧
    (∀ (gp2 : Nat → List α) (fuel2 : Nat),
      (∀ i : Nat, 1000 ≤ (gp2 (1000 * i)).length) → paged_get gp2 fuel2 = none) := by
  constructor
  · have h := pagedGo_spec gp k 0 fuel
      (by rw [show (0 : Nat) + 1000 * k = 1000 * k from by ring]; exact hshort)
      (by intro i hi; rw [show (0 : Nat) + 1000 * i = 1000 * i from by ring]; exact hlong i hi)
      hfuel
    unfold paged_get
    rw [h, pagesFlat_range]
    congr 1
    apply congrArg
    apply List.map_congr_left
    intro i _
    show gp (0 + 1000 * i) = gp (1000 * i)
    congr 1
    omega
  · intro gp2 fuel2 h
    unfold paged_get
    exact pagedGo_diverge gp2 fuel2 0
      (fun j => by rw [show (0 : Nat) + 1000 * j = 1000 * j from by ring]; exact h j)

/-- C10, witness. -/
theorem c10_witness :
    paged_get (fun o => if o = 0 then List.replicate 1000 (0 : Int) else [5]) 2
        = some (((List.range 2).map
            (fun i => if 1000 * i = 0 then List.replicate 1000 (0 : Int) else [5])).flatten) ∧
    (∀ (gp2 : Nat → List Int) (fuel2 : Nat),
      (∀ i : Nat, 1000 ≤ (gp2 (1000 * i)).length) → paged_get gp2 fuel2 = none) :=
  c10_paged_get (fun o => if o = 0 then List.replicate 1000 (0 : Int) else [5]) 1 2
    (by norm_num)
    (by
      intro i hi
      have hi0 : i = 0 := by omega
      subst hi0
      show (1000 : Nat) ≤ (List.replicate 1000 (0 : Int)).length
      rw [List.length_replicate])
    (by norm_num)

end PyClover

namespace PyClover

/-! ## C5: window invariants -/

theorem offCivil_bounds (n minute : Int) : 300 ≤ offCivil n minute ∧ offCivil n minute ≤ 360 := by
  unfold offCivil
  split <;> omega

/-- `toDays` is affine in the day-of-month. -/
theorem toDays_day_affine (y m d d' : Int) : toDays y m d - toDays y m d' = d - d' := by
  simp only [toDays]
  rcases le_or_lt m 2 with h | h
  · simp only [if_pos h]
    omega
  · simp only [if_neg (not_le.mpr h)]
    omega

/-- `today.replace(day=1)` never moves forward. -/
theorem firstOfMonth_le (n : Int) : firstOfMonth n ≤ n ∧ n ≤ firstOfMonth n + 30 := by
  have h := fields_char n
  unfold firstOfMonth yearOf monthOf
  have ha := toDays_day_affine (civilFromDays n).y (civilFromDays n).m 1 (civilFromDays n).d
  omega

/-- The invariant contract of every `window` result: the instants are civil
noon of the start date and civil midnight after the end date, the interval
is non-degenerate, and the shape is one of the three range shapes. -/
def WinInvariant (w : Win) : Prop :=
  w.start_ms = epochMsOf w.s 720 ∧ w.end_ms = epochMsOf (w.e + 1) 0 ∧
  w.s ≤ w.e ∧ w.start_ms < w.end_ms ∧
  (w.rtype = RangeType.day ∨ w.rtype = RangeType.range ∨ w.rtype = RangeType.year)

theorem mkWin_props (s e : Int) (t : RangeType) (hse : s ≤ e) : WinInvariant (mkWin s e t) := by
  refine ⟨rfl, rfl, hse, ?_, ?_⟩
  · show epochMsOf s 720 < epochMsOf (e + 1) 0
    unfold epochMsOf
    have h1 := offCivil_bounds s 720
    have h2 := offCivil_bounds (e + 1) 0
    omega
  · cases t
    · exact Or.inl rfl
    · exact Or.inr (Or.inl rfl)
    · exact Or.inr (Or.inr rfl)

theorem windowKeyword_invariant (range_key : String) (today : Int) (w : Win)
    (h : windowKeyword range_key today = some w) : WinInvariant w := by
  unfold windowKeyword at h
  split_ifs at h
  · exact Option.some_injective _ h ▸ mkWin_props _ _ _ le_rfl
  · exact Option.some_injective _ h ▸ mkWin_props _ _ _ le_rfl
  · refine Option.some_injective _ h ▸ mkWin_props _ _ _ ?_
    exact max_le (by unfold sunday_of_week; omega) (firstOfMonth_le today).1
  · exact Option.some_injective _ h ▸ mkWin_props _ _ _ (firstOfMonth_le today).1
  · refine Option.some_injective _ h ▸ mkWin_props _ _ _ ?_
    omega
  · exact Option.some_injective _ h ▸ mkWin_props _ _ _ (firstOfMonth_le _).1

/-- C5: on every resolution branch of `window`, the returned interval has
start instant = civil noon of the start date and end instant = civil
midnight of the day after the end date (in the fixed timezone), the end
date is not before the start date, the start instant is strictly before the
end instant, and the shape is one of day/range/year. -/
theorem c5_window_invariants (range_key : String) (today : Int) (w : Win)
    (h : window range_key today = some w) : WinInvariant w := by
  unfold window at h
  split_ifs at h
  · exact Option.some_injective _ h ▸ mkWin_props _ _ _ (jan1_le_dec31 _)
  · revert h
    cases pyToInt? range_key with
    | some y =>
      intro h
      simp only at h
      split_ifs at h
      · exact Option.some_injective _ h ▸ mkWin_props _ _ _ (jan1_le_dec31 _)
      · revert h
        cases parseIso range_key with
        | some n =>
          intro h
          simp only at h
          exact Option.some_injective _ h ▸ mkWin_props _ _ _ le_rfl
        | none =>
          intro h
          exact windowKeyword_invariant range_key today w h
    | none =>
      intro h
      revert h
      cases parseIso range_key with
      | some n =>
        intro h
        simp only at h
        exact Option.some_injective _ h ▸ mkWin_props _ _ _ le_rfl
      | none =>
        intro h
        exact windowKeyword_invariant range_key today w h

/-- C5, witness. -/
theorem c5_witness : WinInvariant ⟨64800000, 108000000, 0, 0, RangeType.day⟩ :=
  c5_window_invariants "today" 0 ⟨64800000, 108000000, 0, 0, RangeType.day⟩ (by decide)

/-! ## C8: the `last_week` selector -/

/-- C8: `last_week` resolves to the full Sunday-through-Saturday week
strictly preceding the current week's Sunday, and the most-recent-Sunday
computation gives a Sunday current date offset 0 (itself), never 7. -/
theorem c8_last_week (today : Int) (w : Win)
    (h : window "last_week" today = some w) :
    w.s = sunday_of_week today - 7 ∧ w.e = sunday_of_week today - 1 ∧
    w.e - w.s = 6 ∧ wdSun w.s = 0 ∧ wdSun w.e = 6 ∧
    wdSun (sunday_of_week today) = 0 ∧
    sunday_of_week today ≤ today ∧ today - sunday_of_week today ≤ 6 ∧
    (wdSun today = 0 → sunday_of_week today = today) ∧
    w.rtype = RangeType.range := by
  have hw : window "last_week" today
      = some (mkWin (sunday_of_week today - 7) (sunday_of_week today - 1) RangeType.range) := rfl
  rw [hw] at h
  obtain rfl := Option.some_injective _ h.symm
  refine ⟨rfl, rfl, ?_, ?_, ?_, ?_, ?_, ?_, ?_, rfl⟩ <;>
    simp only [mkWin, wdSun, sunday_of_week, pyWeekday] <;> omega

/-- C8, witness (current date 2024-06-15, a Saturday). -/
theorem c8_witness :
    (19876 : Int) = sunday_of_week 19889 - 7 ∧ (19882 : Int) = sunday_of_week 19889 - 1 ∧
    (19882 : Int) - 19876 = 6 ∧ wdSun 19876 = 0 ∧ wdSun 19882 = 6 ∧
    wdSun (sunday_of_week 19889) = 0 ∧
    sunday_of_week 19889 ≤ 19889 ∧ (19889 : Int) - sunday_of_week 19889 ≤ 6 ∧
    (wdSun 19889 = 0 → sunday_of_week 19889 = 19889) ∧
    RangeType.range = RangeType.range :=
  c8_last_week 19889 ⟨1717347600000, 1717909200000, 19876, 19882, RangeType.range⟩ (by decide)

end PyClover

namespace PyClover

/-! ## C4: month chunking of large fetches -/

/-- Every chunk the payments chunk loop emits is re-anchored to civil noon
(start) and civil next-day midnight (end). -/
theorem payChunksGo_anchored (endDate : Int) :
    ∀ (fuel : Nat) (cur : Int) (c : Int × Int),
      c ∈ payChunksGo endDate cur fuel →
      ∃ cs ce : Int, c.1 = epochMsOf cs 720 ∧ c.2 = epochMsOf (ce + 1) 0 := by
  intro fuel
  induction fuel with
  | zero =>
    intro cur c hc
    simp [payChunksGo] at hc
  | succ f ih =>
    intro cur c hc
    simp only [payChunksGo] at hc
    by_cases hcur : cur ≤ endDate
    · rw [if_pos hcur] at hc
      rcases List.mem_cons.mp hc with rfl | hc2
      · exact ⟨cur, min (nextMonthStart cur - 1) endDate, rfl, rfl⟩
      · exact ih _ _ hc2
    · rw [if_neg hcur] at hc
      simp at hc

/-- Every chunk the orders chunk loop emits ends at the raw UTC instant
`min(next_month, end)`, keeping the current instant's time of day. -/
theorem orderChunksGo_shape (endMs : Int) :
    ∀ (fuel : Nat) (cur : Int) (c : Int × Int),
      c ∈ orderChunksGo endMs cur fuel →
      c.2 = min (ordersNextMonth c.1) endMs := by
  intro fuel
  induction fuel with
  | zero =>
    intro cur c hc
    simp [orderChunksGo] at hc
  | succ f ih =>
    intro cur c hc
    simp only [orderChunksGo] at hc
    by_cases hcur : cur < endMs
    · rw [if_pos hcur] at hc
      rcases List.mem_cons.mp hc with rfl | hc2
      · rfl
      · exact ih _ _ hc2
    · rw [if_neg hcur] at hc
      simp at hc

/-- A Central-midnight instant always has UTC time-of-day 06:00 (CST) or
05:00 (CDT). -/
theorem epochMs_midnight_mod (d : Int) :
    epochMsOf d 0 % 86400000 = 21600000 ∨ epochMsOf d 0 % 86400000 = 18000000 := by
  unfold epochMsOf offCivil
  split
  · right
    omega
  · left
    omega

/-- C4 counterexample: the year window for 2024 spans more than 90 days, so
both fetches chunk; but the first orders chunk ends at the raw UTC instant
1706810400000 (2024-02-01 18:00 UTC, the month boundary holding the start
instant's time of day), which is not Central midnight of any day — the
orders fetch does not re-anchor its chunk bounds to the noon/midnight
window convention. -/
theorem c4_counterexample :
    (window "2024" 0).map Win.start_ms = some 1704132000000 ∧
    (window "2024" 0).map Win.end_ms = some 1735711200000 ∧
    90 < ((1735711200000 - 1704132000000 : Int)) / 86400000 ∧
    (orderChunksGo 1735711200000 1704132000000 367).take 1 = [(1704132000000, 1706810400000)] ∧
    (∀ d : Int, epochMsOf d 0 ≠ 1706810400000) := by
  refine ⟨by decide, by decide, by decide, by decide, ?_⟩
  intro d heq
  have h := epochMs_midnight_mod d
  rw [heq] at h
  revert h
  decide

/-- C4 amended: for intervals over 90 days both fetches chunk and return
the concatenation of per-chunk drained results, but only the payments fetch
re-anchors every chunk to the civil noon start / next-day midnight end in
the fixed timezone; the orders fetch cuts at UTC calendar-month boundaries
that keep the start instant's time of day (`min(next_month, end)`), without
noon/midnight re-anchoring. -/
theorem c4_amended (pg : Int → Int → Bool → List Payment) (og : Int → Int → List Order)
    (start_ms end_ms : Int) (h : 90 < (end_ms - start_ms) / 86400000) :
    (∃ chunks : List (Int × Int),
       get_payments pg start_ms end_ms = (chunks.map (fun c => pg c.1 c.2 true)).flatten ∧
       ∀ c ∈ chunks, ∃ cs ce : Int, c.1 = epochMsOf cs 720 ∧ c.2 = epochMsOf (ce + 1) 0) ∧
    (∃ chunks : List (Int × Int),
       get_orders og start_ms end_ms = (chunks.map (fun c => og c.1 c.2)).flatten ∧
       ∀ c ∈ chunks, c.2 = min (ordersNextMonth c.1) end_ms) := by
  constructor
  · refine ⟨payChunksGo (centralOfUtcMs end_ms).1 (centralOfUtcMs start_ms).1
      ((centralOfUtcMs end_ms).1 + 1 - (centralOfUtcMs start_ms).1).toNat, ?_, ?_⟩
    · unfold get_payments
      rw [if_pos h]
    · intro c hc
      exact payChunksGo_anchored _ _ _ c hc
  · refine ⟨orderChunksGo end_ms start_ms ((end_ms - start_ms) / 86400000 + 2).toNat, ?_, ?_⟩
    · unfold get_orders
      rw [if_pos h]
    · intro c hc
      exact orderChunksGo_shape _ _ _ c hc

/-- C4 amended, witness (the 2024 year window). -/
theorem c4_amended_witness :
    (∃ chunks : List (Int × Int),
       get_payments (fun _ _ _ => []) 1704132000000 1735711200000
          = (chunks.map (fun c => (fun (_ _ : Int) (_ : Bool) => ([] : List Payment)) c.1 c.2 true)).flatten ∧
       ∀ c ∈ chunks, ∃ cs ce : Int, c.1 = epochMsOf cs 720 ∧ c.2 = epochMsOf (ce + 1) 0) ∧
    (∃ chunks : List (Int × Int),
       get_orders (fun _ _ => []) 1704132000000 1735711200000
          = (chunks.map (fun c => (fun (_ _ : Int) => ([] : List Order)) c.1 c.2)).flatten ∧
       ∀ c ∈ chunks, c.2 = min (ordersNextMonth c.1) 1735711200000) :=
  c4_amended (fun _ _ _ => []) (fun _ _ => []) 1704132000000 1735711200000 (by decide)

end PyClover

/-! ## C6: hourly bucketing sums to the scalar net sales -/

namespace PyClover

theorem f3_mono (a b : Int) (h : a ≤ b) : f3 a ≤ f3 b := by
  simp only [f3]
  omega

theorem wdSun_step (n : Int) : wdSun (n + 1) = (wdSun n + 1) % 7 := by
  unfold wdSun
  omega

theorem mp_step (doy : Int) :
    (mpOf (doy + 1) = mpOf doy ∧ domOfDoy (doy + 1) = domOfDoy doy + 1)
    ∨ (mpOf (doy + 1) = mpOf doy + 1 ∧ domOfDoy (doy + 1) = 1 ∧ 30 ≤ domOfDoy doy) := by
  simp only [domOfDoy, mpOf]
  have hc : (5 * (doy + 1) + 2) / 153 = (5 * doy + 2) / 153 ∨
      (5 * (doy + 1) + 2) / 153 = (5 * doy + 2) / 153 + 1 := by omega
  rcases hc with hc | hc
  · left
    rw [hc]
    exact ⟨rfl, by omega⟩
  · right
    rw [hc]
    refine ⟨rfl, ?_, ?_⟩ <;>
    · have h153 : 5 * doy + 2 < 153 * ((5 * doy + 2) / 153 + 1) ∧
          153 * ((5 * doy + 2) / 153 + 1) ≤ 5 * doy + 7 := by omega
      omega

end PyClover

namespace PyClover

theorem civil_decomp (n : Int) :
    ∃ era doe : Int, 0 ≤ doe ∧ doe < 146097 ∧ era * 146097 + doe = n + 719468 ∧
      civilFromDays n
        = ⟨(yoeOf doe + era * 400)
            + (if mpOf (doe - f3 (yoeOf doe)) + (if mpOf (doe - f3 (yoeOf doe)) < 10 then 3 else -9) ≤ 2
               then 1 else 0),
           mpOf (doe - f3 (yoeOf doe)) + (if mpOf (doe - f3 (yoeOf doe)) < 10 then 3 else -9),
           domOfDoy (doe - f3 (yoeOf doe))⟩ := by
  refine ⟨(n + 719468) / 146097, (n + 719468) % 146097,
    Int.emod_nonneg _ (by norm_num), Int.emod_lt_of_pos _ (by norm_num), by omega, rfl⟩

theorem yoe_step (doe : Int) (h0 : 0 ≤ doe) (h1 : doe + 1 < 146097) :
    yoeOf (doe + 1) = yoeOf doe ∨
    (yoeOf (doe + 1) = yoeOf doe + 1 ∧ doe + 1 = f3 (yoeOf doe + 1)) := by
  have hy := yoe_spec doe h0 (by omega)
  have hy2 := yoe_spec (doe + 1) (by omega) h1
  rcases lt_trichotomy (yoeOf (doe + 1)) (yoeOf doe) with h | h | h
  · exfalso
    have hm : f3 (yoeOf (doe + 1) + 1) ≤ f3 (yoeOf doe) := f3_mono _ _ (by omega)
    omega
  · exact Or.inl h
  · right
    have hm : f3 (yoeOf doe + 1) ≤ f3 (yoeOf (doe + 1)) := f3_mono _ _ (by omega)
    have heq : yoeOf (doe + 1) = yoeOf doe + 1 := by
      by_contra hne
      have hge : yoeOf doe + 2 ≤ yoeOf (doe + 1) := by omega
      have hm2 : f3 (yoeOf doe + 2) ≤ f3 (yoeOf (doe + 1)) := f3_mono _ _ hge
      have hs1 := f3_step (yoeOf doe + 1)
      have hs0 := f3_step (yoeOf doe)
      rw [show yoeOf doe + 1 + 1 = yoeOf doe + 2 from by ring] at hs1
      omega
    refine ⟨heq, ?_⟩
    rw [heq] at hy2
    omega

theorem fields_step (n : Int) :
    ((civilFromDays (n + 1)).m = (civilFromDays n).m ∧
     (civilFromDays (n + 1)).d = (civilFromDays n).d + 1)
    ∨ ((civilFromDays (n + 1)).d = 1 ∧ 28 ≤ (civilFromDays n).d ∧
        ((civilFromDays (n + 1)).m = (civilFromDays n).m + 1 ∨
         ((civilFromDays n).m = 12 ∧ (civilFromDays (n + 1)).m = 1))) := by
  obtain ⟨era, doe, h0, h1, hsplit, heq⟩ := civil_decomp n
  obtain ⟨era2, doe2, h02, h12, hsplit2, heq2⟩ := civil_decomp (n + 1)
  have hrel : (era2 = era ∧ doe2 = doe + 1) ∨ (doe = 146096 ∧ era2 = era + 1 ∧ doe2 = 0) := by
    omega
  rcases hrel with ⟨he, hd⟩ | ⟨hdoe, he, hd⟩
  · -- same era, day-of-era advances
    subst he hd
    have hy := yoe_spec doe h0 h1
    have hys := yoe_step doe h0 (by omega)
    rcases hys with hys | ⟨hys, hf⟩
    · -- same shifted year: day-of-year advances
      have hy2 := yoe_spec (doe + 1) (by omega) (by omega)
      rw [hys] at hy2
      rw [hys] at heq2
      have hdoy1 : doe + 1 - f3 (yoeOf doe) = (doe - f3 (yoeOf doe)) + 1 := by ring
      rw [hdoy1] at heq2
      have hstep := f3_step (yoeOf doe)
      have hb : 0 ≤ doe - f3 (yoeOf doe) := by omega
      rcases mp_step (doe - f3 (yoeOf doe)) with ⟨hm1, hd1⟩ | ⟨hm1, hd1, hd30⟩
      · -- same month
        left
        rw [heq, heq2, hm1, hd1]
        exact ⟨rfl, rfl⟩
      · -- next month begins
        right
        rw [heq, heq2, hm1, hd1]
        refine ⟨rfl, ?_, ?_⟩
        · show 28 ≤ domOfDoy (doe - f3 (yoeOf doe))
          omega
        have hmpb := mp_spec (doe - f3 (yoeOf doe)) hb (by omega)
        have hmpb2 := mp_spec (doe - f3 (yoeOf doe) + 1) (by omega) (by omega)
        rw [hm1] at hmpb2
        rcases lt_or_ge (mpOf (doe - f3 (yoeOf doe))) 10 with h10 | h10
        · rcases lt_or_ge (mpOf (doe - f3 (yoeOf doe)) + 1) 10 with h10b | h10b
          · left
            rw [if_pos h10, if_pos h10b]
            ring
          · -- mp goes from 9 to 10: December to January
            have h9 : mpOf (doe - f3 (yoeOf doe)) = 9 := by omega
            right
            rw [if_pos h10, if_neg (not_lt.mpr h10b), h9]
            norm_num
        · -- mp ≥ 10: January to February
          have h10b : ¬ (mpOf (doe - f3 (yoeOf doe)) + 1 < 10) := by omega
          left
          rw [if_neg (not_lt.mpr h10), if_neg h10b]
          ring
    · -- new shifted year: March 1
      rw [hys] at heq2
      have hdoy2 : doe + 1 - f3 (yoeOf doe + 1) = 0 := by omega
      rw [hdoy2] at heq2
      have hdoyv : doe - f3 (yoeOf doe) = f3 (yoeOf doe + 1) - f3 (yoeOf doe) - 1 := by omega
      have hstep := f3_step (yoeOf doe)
      have hdoy36 : doe - f3 (yoeOf doe) = 364 ∨ doe - f3 (yoeOf doe) = 365 := by omega
      have hmp11 : mpOf (doe - f3 (yoeOf doe)) = 11 := by
        unfold mpOf
        omega
      have e8 : mpOf 0 = 0 := by decide
      have e9 : domOfDoy 0 = 1 := by decide
      rw [e8, e9] at heq2
      have hd28 : 28 ≤ domOfDoy (doe - f3 (yoeOf doe)) := by
        simp only [domOfDoy, hmp11]
        omega
      right
      rw [heq, heq2, hmp11]
      refine ⟨?_, ?_, Or.inl ?_⟩
      · norm_num
      · show 28 ≤ domOfDoy (doe - f3 (yoeOf doe))
        exact hd28
      · norm_num
  · -- era boundary: 0399-02-29 style day to the next era's March 1
    subst he hd
    rw [hdoe] at heq
    right
    refine ⟨?_, ?_, Or.inl ?_⟩
    · rw [heq2]
      show domOfDoy (0 - f3 (yoeOf 0)) = 1
      decide
    · rw [heq]
      show 28 ≤ domOfDoy (146096 - f3 (yoeOf 146096))
      decide
    · rw [heq, heq2]
      show mpOf (0 - f3 (yoeOf 0)) + (if mpOf (0 - f3 (yoeOf 0)) < 10 then 3 else -9)
          = mpOf (146096 - f3 (yoeOf 146096))
            + (if mpOf (146096 - f3 (yoeOf 146096)) < 10 then 3 else -9) + 1
      decide

end PyClover

namespace PyClover

theorem dst_civil_step (n : Int) : isDstCivil (n + 1) 0 ↔ isDstCivil n 720 := by
  obtain ⟨ha1, ha2, ha3, ha4, -⟩ := fields_char n
  obtain ⟨hb1, hb2, hb3, hb4, -⟩ := fields_char (n + 1)
  have hs := fields_step n
  have hw : ((n + 4) % 7 < 6 ∧ (n + 1 + 4) % 7 = (n + 4) % 7 + 1) ∨
      ((n + 4) % 7 = 6 ∧ (n + 1 + 4) % 7 = 0) := by omega
  unfold isDstCivil monthOf domOf wdSun
  rcases hs with ⟨hm, hd⟩ | ⟨hd, hd28, hm | ⟨hm, hm2⟩⟩ <;> rcases hw with ⟨hw1, hw2⟩ | ⟨hw1, hw2⟩ <;>
    [rw [hm, hd, hw2]; rw [hm, hd, hw2]; rw [hm, hd, hw2]; rw [hm, hd, hw2];
     rw [hm2, hd, hw2, hm]; rw [hm2, hd, hw2, hm]] <;> omega

end PyClover

namespace PyClover

/-- Within the noon-to-midnight window of day `n`, every instant is on the
same side of the DST transitions as the window's civil noon. -/
theorem dst_instant_window (n t : Int)
    (h1 : epochMsOf n 720 < t) (h2 : t < epochMsOf (n + 1) 0) :
    (isDstInstant t ↔ isDstCivil n 720) := by
  have hcs := dst_civil_step n
  obtain ⟨ha1, ha2, ha3, ha4, -⟩ := fields_char n
  obtain ⟨hb1, hb2, hb3, hb4, -⟩ := fields_char (n + 1)
  have hs := fields_step n
  have hw : ((n + 4) % 7 < 6 ∧ (n + 1 + 4) % 7 = (n + 4) % 7 + 1) ∨
      ((n + 4) % 7 = 6 ∧ (n + 1 + 4) % 7 = 0) := by omega
  unfold epochMsOf offCivil at h1 h2
  by_cases hc : isDstCivil n 720
  · rw [if_pos hc] at h1
    rw [if_pos (hcs.mpr hc)] at h2
    refine iff_of_true ?_ hc
    have hday : (t / 86400000 = n ∧ 61200000 < t % 86400000)
        ∨ (t / 86400000 = n + 1 ∧ t % 86400000 < 18000000) := by omega
    unfold isDstCivil at hc
    unfold isDstInstant
    rcases hday with ⟨hq, hr⟩ | ⟨hq, hr⟩ <;> rw [hq] <;>
      unfold monthOf domOf wdSun at * <;>
      rcases hs with ⟨hm, hd⟩ | ⟨hd, hd28, hm | ⟨hm, hm2⟩⟩ <;>
      rcases hw with ⟨hw1, hw2⟩ | ⟨hw1, hw2⟩ <;>
      omega
  · rw [if_neg hc] at h1
    rw [if_neg (fun hh => hc (hcs.mp hh))] at h2
    refine iff_of_false ?_ hc
    have hday : (t / 86400000 = n ∧ 64800000 < t % 86400000)
        ∨ (t / 86400000 = n + 1 ∧ t % 86400000 < 21600000) := by omega
    intro hinst
    apply hc
    unfold isDstCivil
    unfold isDstInstant at hinst
    rcases hday with ⟨hq, hr⟩ | ⟨hq, hr⟩ <;> rw [hq] at hinst <;>
      unfold monthOf domOf wdSun at * <;>
      rcases hs with ⟨hm, hd⟩ | ⟨hd, hd28, hm | ⟨hm, hm2⟩⟩ <;>
      rcases hw with ⟨hw1, hw2⟩ | ⟨hw1, hw2⟩ <;>
      omega

end PyClover

namespace PyClover

/-- Classification of an instant strictly inside the noon-to-midnight
window of day `n`: its Central civil date is `n` and its Central hour is
12 through 23. -/
theorem window_classify (n t : Int)
    (h1 : epochMsOf n 720 < t) (h2 : t < epochMsOf (n + 1) 0) :
    (centralOfUtcMs t).1 = n ∧ 12 ≤ (centralOfUtcMs t).2 ∧ (centralOfUtcMs t).2 ≤ 23 := by
  have hio := dst_instant_window n t h1 h2
  have hcs := dst_civil_step n
  unfold centralOfUtcMs offInstant
  unfold epochMsOf offCivil at h1 h2
  by_cases hc : isDstCivil n 720
  · rw [if_pos hc] at h1
    rw [if_pos (hcs.mpr hc)] at h2
    rw [if_pos (hio.mpr hc)]
    refine ⟨?_, ?_, ?_⟩
    · show (t - 300 * 60000) / 86400000 = n
      omega
    · show 12 ≤ (t - 300 * 60000) % 86400000 / 3600000
      omega
    · show (t - 300 * 60000) % 86400000 / 3600000 ≤ 23
      omega
  · rw [if_neg hc] at h1
    rw [if_neg (fun hh => hc (hcs.mp hh))] at h2
    rw [if_neg (fun hh => hc (hio.mp hh))]
    refine ⟨?_, ?_, ?_⟩
    · show (t - 360 * 60000) / 86400000 = n
      omega
    · show 12 ≤ (t - 360 * 60000) % 86400000 / 3600000
      omega
    · show (t - 360 * 60000) % 86400000 / 3600000 ≤ 23
      omega

theorem sumBy_add {α : Type} (l : List α) (f g : α → Int) :
    sumBy l (fun x => f x + g x) = sumBy l f + sumBy l g := by
  induction l with
  | nil => rfl
  | cons x xs ih =>
    simp only [sumBy, List.map_cons, List.sum_cons] at *
    omega

theorem sumBy_congr {α : Type} (l : List α) (f g : α → Int) (h : ∀ x ∈ l, f x = g x) :
    sumBy l f = sumBy l g := by
  unfold sumBy
  rw [List.map_congr_left h]

theorem sum_ite_range13 (k v : Int) (hk1 : 12 ≤ k) (hk2 : k ≤ 24) :
    sumBy (List.range 13) (fun i => if k = 12 + (i : Int) then v else 0) = v := by
  have hr : List.range 13 = [0,1,2,3,4,5,6,7,8,9,10,11,12] := rfl
  unfold sumBy
  rw [hr]
  simp only [List.map_cons, List.map_nil, List.sum_cons, List.sum_nil]
  interval_cases k <;> norm_num

theorem bucketSum_dincr (m : List (Int × Int)) (k v : Int) (hk1 : 12 ≤ k) (hk2 : k ≤ 24) :
    bucketSum (dincr m k v) = bucketSum m + v := by
  show sumBy (List.range 13) (fun i => vget (dincr m k v) (12 + (i : Int)))
      = sumBy (List.range 13) (fun i => vget m (12 + (i : Int))) + v
  rw [sumBy_congr (List.range 13)
    (fun i => vget (dincr m k v) (12 + (i : Int)))
    (fun i => vget m (12 + (i : Int)) + (if k = 12 + (i : Int) then v else 0))
    (fun i _ => dincr_vget m k (12 + (i : Int)) v)]
  rw [sumBy_add, sum_ite_range13 k v hk1 hk2]

theorem net_sales_eq_sum (payments : List Payment) :
    net_sales_cents payments = sumBy payments paymentNet := by
  induction payments with
  | nil => rfl
  | cons p ps ih =>
    unfold net_sales_cents at *
    simp only [paymentNet, sumBy, List.map_cons, List.sum_cons] at *
    omega

theorem sales_fold_bucket (target : Int) :
    ∀ (payments : List Payment) (acc : List (Int × Int)),
      (∀ p ∈ payments, ∃ t : Int, p.createdTime = some t ∧ t ≠ 0 ∧
          epochMsOf target 720 < t ∧ t < epochMsOf (target + 1) 0) →
      bucketSum (payments.foldl
        (fun acc p =>
          match p.createdTime with
          | none => acc
          | some t =>
            if t = 0 then acc
            else
              let dt := centralOfUtcMs t
              if dt.1 = target then
                (if 12 ≤ dt.2 then dincr acc dt.2 (paymentNet p) else acc)
              else if dt.1 = target + 1 ∧ dt.2 = 0 then dincr acc 24 (paymentNet p)
              else acc) acc)
        = bucketSum acc + sumBy payments paymentNet := by
  intro payments
  induction payments with
  | nil =>
    intro acc _
    simp [sumBy]
  | cons p ps ih =>
    intro acc h
    obtain ⟨t, hct, ht0, hlo, hhi⟩ := h p (List.mem_cons_self p ps)
    rw [List.foldl_cons]
    simp only [hct]
    rw [if_neg ht0]
    have hcl := window_classify target t hlo hhi
    rw [if_pos hcl.1, if_pos hcl.2.1]
    rw [ih _ (fun q hq => h q (List.mem_cons_of_mem p hq))]
    rw [bucketSum_dincr _ _ _ (by omega) (by omega)]
    rw [sumBy_cons]
    ring

end PyClover

namespace PyClover

def c6Payment : Payment := { Payment.empty with amount := some 100, createdTime := some 0 }

/-- C6 counterexample: a payment with `createdTime = 0` (the Unix epoch)
lies strictly inside the fetch window of the single-day range for
1969-12-31 (day number -1), yet `sales_by_hour` skips it because Python's
`if not created_time` treats the timestamp 0 as falsy; the hourly buckets
sum to 0 while the scalar net sales of the same payment list is 100. -/
theorem c6_counterexample :
    epochMsOf (-1) 720 < 0 ∧ (0 : Int) < epochMsOf (-1 + 1) 0 ∧
    sales_by_hour [c6Payment] (-1) = [] ∧
    bucketSum (sales_by_hour [c6Payment] (-1)) = 0 ∧
    net_sales_cents [c6Payment] = 100 ∧
    (0 : Int) ≠ 100 := by
  decide

/-- C6 amended: for every single-day range with target date `d` and every
payment list fetched for that day's window (each payment's creation time
strictly between the window's instants) none of whose timestamps is the
falsy value 0, the sum of the hourly sales breakdown over buckets 12
through 24 inclusive equals the scalar net-sales result of the same
payment list. -/
theorem c6_amended (target : Int) (payments : List Payment)
    (h : ∀ p ∈ payments, ∃ t : Int, p.createdTime = some t ∧ t ≠ 0 ∧
          epochMsOf target 720 < t ∧ t < epochMsOf (target + 1) 0) :
    bucketSum (sales_by_hour payments target) = net_sales_cents payments := by
  unfold sales_by_hour
  rw [sales_fold_bucket target payments [] h, net_sales_eq_sum]
  have h0 : bucketSum ([] : List (Int × Int)) = 0 := by decide
  omega

def c6WitnessPayment : Payment :=
  ⟨some 500, some 40, none, none, none, none, some 1718474400000⟩

/-- C6 amended, witness (one 13:00-CDT payment on 2024-06-15). -/
theorem c6_witness :
    bucketSum (sales_by_hour [c6WitnessPayment] 19889) = net_sales_cents [c6WitnessPayment] :=
  c6_amended 19889 [c6WitnessPayment]
    (by
      intro p hp
      rcases List.mem_cons.mp hp with rfl | hq
      · exact ⟨1718474400000, rfl, by decide, by decide, by decide⟩
      · exact absurd hq (List.not_mem_nil p))

end PyClover
